import Mathlib

/-
Verification of the brightness-contour tool's pixel pipeline.

The definitions below are shallow embeddings of the TypeScript source:
  * src/src/hooks/useCanvasRenderer.ts   (detectContours, the combine helpers,
    renderWithLayers)
  * src/unnamed/part_002                 (hysteresisThresholding, otsuMethod,
    calculateOptimalThresholds)
  * src/src/hooks/useEdgeProcessing.ts   (thinEdges)
  * src/src/hooks/useFrequencySeparation.ts (the combined high-frequency
    encoding of separateFrequencies)

JavaScript numbers are modelled as exact rationals; stores into a
Uint8ClampedArray are modelled by clamping to [0, 255] with round half to
even, Math.round by round half up, Math.floor by the integer floor.
-/

namespace ContourTool

/-- RGBA pixel with natural-number channel values (bytes 0..255 in valid buffers). -/
structure Rgba where
  r : ℕ
  g : ℕ
  b : ℕ
  a : ℕ
deriving DecidableEq, Repr

/-- The all-zero, fully transparent pixel: the initial content of a fresh ImageData. -/
def Rgba.zero : Rgba := ⟨0, 0, 0, 0⟩

/-- A raster image: dimensions plus a pixel function (column x, row y). -/
structure Image where
  width : ℕ
  height : ℕ
  px : ℕ → ℕ → Rgba

/-- Store of an integer value into a Uint8ClampedArray slot: clamp to [0, 255]. -/
def jsByteI (z : ℤ) : ℕ := (min 255 (max 0 z)).toNat

/-- Rounding used by Uint8ClampedArray stores: round to nearest, ties to even. -/
def roundHalfEven (q : ℚ) : ℤ :=
  if q - ⌊q⌋ < 1/2 then ⌊q⌋
  else if 1/2 < q - ⌊q⌋ then ⌊q⌋ + 1
  else if ⌊q⌋ % 2 = 0 then ⌊q⌋ else ⌊q⌋ + 1

/-- Store of a fractional value into a Uint8ClampedArray slot. -/
def jsByte (q : ℚ) : ℕ := jsByteI (roundHalfEven q)

/-- JavaScript Math.round: round half toward positive infinity. -/
def jsRound (q : ℚ) : ℤ := ⌊q + 1/2⌋

/- ## Brightness / contour analyzer (useCanvasRenderer.ts, detectContours) -/

/-- The contour settings consumed by detectContours (ImageTypes.ts). -/
structure ContourSettings where
  levels : ℕ
  transparency : ℕ
  brightnessThreshold : ℕ
  contourContrast : ℕ
deriving DecidableEq, Repr

/-- A brightness map as produced by useBrightnessAnalysis: per-pixel BT.601
luminance values, indexed brightnessMap y x like the source's 2D array. -/
structure BrightnessData where
  width : ℕ
  height : ℕ
  brightnessMap : ℕ → ℕ → ℚ

/-- `const levelStep = 255 / settings.levels`. -/
def levelStep (s : ContourSettings) : ℚ := 255 / (s.levels : ℚ)

/-- `Math.floor(brightness / levelStep)`. -/
def codeLevel (step : ℚ) (b : ℚ) : ℤ := ⌊b / step⌋

/-- The four 4-connected neighbor brightness values, in the source's order
(up, down, left, right). -/
def neighborsAt (bd : BrightnessData) (x y : ℕ) : List ℚ :=
  [bd.brightnessMap (y - 1) x, bd.brightnessMap (y + 1) x,
   bd.brightnessMap y (x - 1), bd.brightnessMap y (x + 1)]

/-- The source's contour test: some 4-neighbor has
`Math.abs(currentLevel - neighborLevel) >= 1`. -/
def isContourAt (bd : BrightnessData) (s : ContourSettings) (x y : ℕ) : Bool :=
  (neighborsAt bd x y).any fun nb =>
    decide (1 ≤ (codeLevel (levelStep s) (bd.brightnessMap y x) -
                 codeLevel (levelStep s) nb).natAbs)

/-- `Math.floor(255 * (settings.transparency / 100))`, stored as a byte. -/
def contourAlpha (t : ℕ) : ℕ := jsByteI ⌊(255 : ℚ) * ((t : ℚ) / 100)⌋

/-- The adaptive contour gray of detectContours: compare the brightness with
the midpoint of its quantization range, darken below the range or lighten
above it by 30. -/
def contourGrayAt (s : ContourSettings) (b : ℚ) : ℚ :=
  let L := codeLevel (levelStep s) b
  let levelRangeMin : ℚ := ((L : ℚ) / (s.levels : ℚ)) * 255
  let levelRangeMax : ℚ := (((L : ℚ) + 1) / (s.levels : ℚ)) * 255
  let rangeMid := (levelRangeMin + levelRangeMax) / 2
  if rangeMid < b then max 0 (levelRangeMin - 30) else min 255 (levelRangeMax + 30)

/-- Pixels visited by the detection loops: the 1-pixel border is excluded. -/
def interiorAt (w h x y : ℕ) : Prop := 1 ≤ x ∧ x + 1 < w ∧ 1 ≤ y ∧ y + 1 < h

instance (w h x y : ℕ) : Decidable (interiorAt w h x y) := by
  unfold interiorAt; infer_instance

/-- detectContours (useCanvasRenderer.ts lines 562-622): an RGBA buffer that is
transparent everywhere except at interior contour pixels, which receive the
adaptive gray and the transparency-scaled alpha. -/
def detectContours (bd : BrightnessData) (s : ContourSettings) : Image where
  width := bd.width
  height := bd.height
  px := fun x y =>
    if interiorAt bd.width bd.height x y then
      if isContourAt bd s x y then
        ⟨jsByte (contourGrayAt s (bd.brightnessMap y x)),
         jsByte (contourGrayAt s (bd.brightnessMap y x)),
         jsByte (contourGrayAt s (bd.brightnessMap y x)),
         contourAlpha s.transparency⟩
      else Rgba.zero
    else Rgba.zero

/-- detectContoursTransparent: identical detection, fixed gray 200. -/
def detectContoursTransparent (bd : BrightnessData) (s : ContourSettings) : Image where
  width := bd.width
  height := bd.height
  px := fun x y =>
    if interiorAt bd.width bd.height x y then
      if isContourAt bd s x y then ⟨200, 200, 200, contourAlpha s.transparency⟩
      else Rgba.zero
    else Rgba.zero

/-- Quantization level exactly as the specification words it:
`floor(brightness / (255/levels))`. -/
def claimLevel (levels : ℕ) (b : ℚ) : ℤ := ⌊b / ((255 : ℚ) / (levels : ℚ))⌋

/-- The specification's contour predicate: some 4-connected neighbor has a
different quantization level. -/
def claimContourAt (bd : BrightnessData) (s : ContourSettings) (x y : ℕ) : Prop :=
  ∃ nb ∈ neighborsAt bd x y,
    claimLevel s.levels nb ≠ claimLevel s.levels (bd.brightnessMap y x)

instance (bd : BrightnessData) (s : ContourSettings) (x y : ℕ) :
    Decidable (claimContourAt bd s x y) := by
  unfold claimContourAt; infer_instance

/-- The interior pixel coordinates (x, y) visited by the double loops of the
source, in row-major order. -/
def interiorCoords (w h : ℕ) : List (ℕ × ℕ) :=
  (List.range (h - 2)).flatMap fun j => (List.range (w - 2)).map fun i => (i + 1, j + 1)

/-- Number of contour pixels detected on a brightness map: interior pixels
passing the detection test of detectContours. -/
def contourCount (bd : BrightnessData) (s : ContourSettings) : ℕ :=
  ((interiorCoords bd.width bd.height).filter fun p => isContourAt bd s p.1 p.2).length

/-- The first 4-neighbor whose quantization level differs, in the source's
scan order (up, down, left, right). -/
def firstDifferingNeighbor (bd : BrightnessData) (s : ContourSettings) (x y : ℕ) :
    Option ℚ :=
  (neighborsAt bd x y).find? fun nb =>
    decide (claimLevel s.levels nb ≠ claimLevel s.levels (bd.brightnessMap y x))

/-- Modelled from the spec's words (claim C4): average the pixel's brightness
with the first differing neighbor's brightness, offset by -25 above the
brightness threshold and +75 below it, blend toward black or white by
contourContrast percent, and clamp. -/
def specC4Gray (bd : BrightnessData) (s : ContourSettings) (x y : ℕ) : ℚ :=
  match firstDifferingNeighbor bd s x y with
  | none => 0
  | some nb =>
    let adjacentBrightness := (bd.brightnessMap y x + nb) / 2
    let g0 := if (s.brightnessThreshold : ℚ) ≤ adjacentBrightness then
        adjacentBrightness - 25 else adjacentBrightness + 75
    let target : ℚ := if (s.brightnessThreshold : ℚ) ≤ adjacentBrightness then 0 else 255
    min 255 (max 0 (g0 + (target - g0) * (s.contourContrast : ℚ) / 100))

/-- The contour gray the code actually writes, stated independently of the
embedding: quantization range of the pixel's level, darkened or lightened
by 30 depending on which half of the range the brightness falls in. -/
def amendedContourGray (levels : ℕ) (b : ℚ) : ℚ :=
  let L := claimLevel levels b
  let lo : ℚ := (L : ℚ) * 255 / (levels : ℚ)
  let hi : ℚ := ((L : ℚ) + 1) * 255 / (levels : ℚ)
  if (lo + hi) / 2 < b then max 0 (lo - 30) else min 255 (hi + 30)

/- ## Supporting lemmas for the contour claims -/

lemma floor_div_natCast (x : ℚ) (k : ℕ) (hk : 1 ≤ k) :
    ⌊x / (k : ℚ)⌋ = ⌊((⌊x⌋ : ℚ)) / (k : ℚ)⌋ := by
  have hk0 : (0 : ℚ) < (k : ℚ) := by exact_mod_cast hk
  apply le_antisymm
  · rw [Int.le_floor, le_div_iff₀ hk0]
    have h1 : (⌊x / (k : ℚ)⌋ : ℚ) ≤ x / k := Int.floor_le _
    have h2 : (⌊x / (k : ℚ)⌋ : ℚ) * k ≤ x := (le_div_iff₀ hk0).mp h1
    have h3 : (⌊x / (k : ℚ)⌋ * (k : ℤ) : ℤ) ≤ ⌊x⌋ := Int.le_floor.mpr (by push_cast; exact h2)
    exact_mod_cast h3
  · exact Int.floor_mono (by gcongr; exact Int.floor_le x)

lemma level_dvd_transfer (b₁ b₂ : ℚ) (l₁ k : ℕ) (hl : 1 ≤ l₁) (hk : 1 ≤ k)
    (h : codeLevel (255 / ((l₁ * k : ℕ) : ℚ)) b₁ = codeLevel (255 / ((l₁ * k : ℕ) : ℚ)) b₂) :
    codeLevel (255 / (l₁ : ℚ)) b₁ = codeLevel (255 / (l₁ : ℚ)) b₂ := by
  have key : ∀ b : ℚ,
      codeLevel (255 / (l₁ : ℚ)) b =
        ⌊((codeLevel (255 / ((l₁ * k : ℕ) : ℚ)) b : ℚ)) / (k : ℚ)⌋ := by
    intro b
    unfold codeLevel
    rw [← floor_div_natCast _ k hk]
    congr 1
    have hl0 : ((l₁ : ℚ)) ≠ 0 := by positivity
    have hk0 : ((k : ℚ)) ≠ 0 := by positivity
    push_cast
    field_simp
    ring
  rw [key b₁, key b₂, h]

lemma claimLevel_eq_codeLevel (s : ContourSettings) (b : ℚ) :
    claimLevel s.levels b = codeLevel (levelStep s) b := rfl

lemma isContour_iff_claim (bd : BrightnessData) (s : ContourSettings) (x y : ℕ) :
    isContourAt bd s x y = true ↔ claimContourAt bd s x y := by
  unfold isContourAt claimContourAt
  simp only [List.any_eq_true, decide_eq_true_eq, claimLevel_eq_codeLevel]
  constructor
  · rintro ⟨nb, hmem, habs⟩
    refine ⟨nb, hmem, ?_⟩
    intro heq
    rw [heq] at habs
    omega
  · rintro ⟨nb, hmem, hne⟩
    exact ⟨nb, hmem, by omega⟩

/- ## Claim theorems: contour analyzer -/

/-- C1: for every BrightnessMap and ContourSettings with levels ≥ 1,
detectContours marks an interior pixel as a contour pixel exactly when the
quantization level floor(brightness/(255/levels)) of at least one 4-connected
neighbor differs from its own, leaves the 1-pixel border fully transparent,
and produces zero contour pixels on a uniform map. -/
theorem detectContours_boundary_spec (bd : BrightnessData) (s : ContourSettings)
    (_hlev : 1 ≤ s.levels) :
    (∀ x y, interiorAt bd.width bd.height x y →
        (detectContours bd s).px x y =
          if claimContourAt bd s x y then
            ⟨jsByte (contourGrayAt s (bd.brightnessMap y x)),
             jsByte (contourGrayAt s (bd.brightnessMap y x)),
             jsByte (contourGrayAt s (bd.brightnessMap y x)),
             contourAlpha s.transparency⟩
          else Rgba.zero) ∧
    (∀ x y, ¬ interiorAt bd.width bd.height x y →
        (detectContours bd s).px x y = Rgba.zero) ∧
    (∀ c : ℚ, (∀ y x, bd.brightnessMap y x = c) →
        ∀ x y, (detectContours bd s).px x y = Rgba.zero) := by
  refine ⟨?_, ?_, ?_⟩
  · intro x y hxy
    by_cases hc : claimContourAt bd s x y
    · rw [if_pos hc]
      have hb : isContourAt bd s x y = true := (isContour_iff_claim bd s x y).mpr hc
      simp [detectContours, hxy, hb]
    · rw [if_neg hc]
      have hb : ¬ isContourAt bd s x y = true := fun h => hc ((isContour_iff_claim bd s x y).mp h)
      simp [detectContours, hxy, hb]
  · intro x y hxy
    simp [detectContours, hxy]
  · intro c hc x y
    have hb : ¬ isContourAt bd s x y = true := by
      intro h
      rcases (isContour_iff_claim bd s x y).mp h with ⟨nb, hmem, hne⟩
      apply hne
      have hnb : nb = c := by
        simp only [neighborsAt, List.mem_cons, List.not_mem_nil, or_false] at hmem
        rcases hmem with h | h | h | h <;> rw [h, hc]
      rw [hnb, hc]
    simp [detectContours, hb]

theorem detectContours_boundary_spec_witness :
    (1 ≤ (4 : ℕ)) ∧
    (detectContours ⟨3, 3, fun _ _ => 0⟩ ⟨4, 100, 65, 0⟩).px 0 0 = Rgba.zero :=
  ⟨by decide, (detectContours_boundary_spec ⟨3, 3, fun _ _ => 0⟩ ⟨4, 100, 65, 0⟩
      (by decide)).2.1 0 0 (by decide)⟩

/-- A 3-by-3 brightness map whose center row holds 127 127 128: a level
boundary at 2 levels that vanishes at 3 levels. -/
def bdPair : BrightnessData := ⟨3, 3, fun y x => if y = 1 ∧ x = 2 then 128 else 127⟩

lemma interiorCoords_three : interiorCoords 3 3 = [(1, 1)] := by
  simp [interiorCoords, List.range_succ]

/-- C7 counterexample: on the non-uniform map bdPair, raising levels from 2 to
3 strictly decreases the detected contour pixel count (1 becomes 0). -/
theorem contourCount_not_monotone :
    (2 : ℕ) < 3 ∧ 1 ≤ (2 : ℕ) ∧ (3 : ℕ) ≤ 64 ∧
    bdPair.brightnessMap 1 2 ≠ bdPair.brightnessMap 1 1 ∧
    contourCount bdPair ⟨3, 100, 65, 0⟩ < contourCount bdPair ⟨2, 100, 65, 0⟩ := by
  refine ⟨by norm_num, by norm_num, by norm_num, by norm_num [bdPair], ?_⟩
  show ((interiorCoords 3 3).filter _).length < ((interiorCoords 3 3).filter _).length
  rw [interiorCoords_three]
  norm_num [isContourAt, neighborsAt, codeLevel, levelStep, bdPair]

/-- C7 amended: for a fixed BrightnessMap, the contour pixel count is
monotone when the coarser level count divides the finer one (nested
quantization bins); for general level pairs monotonicity fails. -/
theorem contourCount_monotone_of_dvd (bd : BrightnessData) (s : ContourSettings)
    (l₁ l₂ : ℕ) (h₁ : 1 ≤ l₁) (h₂ : 1 ≤ l₂) (hdvd : l₁ ∣ l₂) :
    contourCount bd { s with levels := l₁ } ≤ contourCount bd { s with levels := l₂ } := by
  rcases hdvd with ⟨k, rfl⟩
  have hk : 1 ≤ k := by
    rcases Nat.eq_zero_or_pos k with h | h
    · subst h; omega
    · exact h
  unfold contourCount
  apply List.Sublist.length_le
  apply List.monotone_filter_right
  rintro ⟨x, y⟩ hcont
  simp only [isContourAt, levelStep, List.any_eq_true, decide_eq_true_eq] at *
  rcases hcont with ⟨nb, hmem, habs⟩
  refine ⟨nb, hmem, ?_⟩
  by_contra h0
  have heq : codeLevel (255 / ((l₁ * k : ℕ) : ℚ)) (bd.brightnessMap y x) =
      codeLevel (255 / ((l₁ * k : ℕ) : ℚ)) nb := by omega
  have := level_dvd_transfer (bd.brightnessMap y x) nb l₁ k h₁ hk heq
  omega

theorem contourCount_monotone_of_dvd_witness :
    (1 ≤ (2 : ℕ)) ∧ (1 ≤ (4 : ℕ)) ∧ (2 : ℕ) ∣ 4 ∧
    contourCount bdPair ⟨2, 100, 65, 0⟩ ≤ contourCount bdPair ⟨4, 100, 65, 0⟩ :=
  ⟨by decide, by decide, by decide,
    contourCount_monotone_of_dvd bdPair ⟨2, 100, 65, 0⟩ 2 4
      (by decide) (by decide) (by decide)⟩

/-- A 3-by-3 brightness map: center 100, right neighbor 200. -/
def bdC4 : BrightnessData := ⟨3, 3, fun y x => if y = 1 ∧ x = 2 then 200 else 100⟩

def sC4 : ContourSettings := ⟨2, 100, 65, 0⟩

lemma bdC4_isContour : isContourAt bdC4 sC4 1 1 = true := by
  norm_num [isContourAt, neighborsAt, codeLevel, levelStep, bdC4, sC4]

/-- C4 counterexample: at the interior contour pixel (1,1) of bdC4 the code
writes gray 0 (level-range scheme), while the claim's adjacent-brightness
average scheme would give 125. -/
theorem contour_color_not_average_based :
    (detectContours bdC4 sC4).px 1 1 = ⟨0, 0, 0, 255⟩ ∧
    isContourAt bdC4 sC4 1 1 = true ∧
    jsByte (specC4Gray bdC4 sC4 1 1) = 125 ∧ (0 : ℕ) ≠ 125 := by
  refine ⟨?_, bdC4_isContour, ?_, by norm_num⟩
  · have hint : interiorAt bdC4.width bdC4.height 1 1 := by
      simp [bdC4, interiorAt]
    simp only [detectContours, if_pos hint, bdC4_isContour, if_pos rfl]
    norm_num [contourGrayAt, codeLevel, levelStep, bdC4, sC4, contourAlpha,
      jsByte, jsByteI, roundHalfEven]
    decide
  · norm_num [specC4Gray, firstDifferingNeighbor, neighborsAt, claimLevel, bdC4, sC4,
      List.find?, jsByte, jsByteI, roundHalfEven]
    decide

/-- C4 amended: for every contour pixel the written gray value is determined
by the pixel's own quantization range: the lower range bound minus 30
(clamped at 0) when the brightness lies above the range midpoint, the upper
range bound plus 30 (clamped at 255) otherwise; the written alpha is
floor(255 * transparency / 100). -/
theorem contour_color_range_based (bd : BrightnessData) (s : ContourSettings)
    (x y : ℕ) (_hlev : 1 ≤ s.levels)
    (hint : interiorAt bd.width bd.height x y)
    (hc : isContourAt bd s x y = true) :
    (detectContours bd s).px x y =
      ⟨jsByte (amendedContourGray s.levels (bd.brightnessMap y x)),
       jsByte (amendedContourGray s.levels (bd.brightnessMap y x)),
       jsByte (amendedContourGray s.levels (bd.brightnessMap y x)),
       jsByteI ⌊(255 : ℚ) * ((s.transparency : ℚ) / 100)⌋⟩ := by
  have hgray : contourGrayAt s (bd.brightnessMap y x) =
      amendedContourGray s.levels (bd.brightnessMap y x) := by
    simp only [contourGrayAt, amendedContourGray, claimLevel_eq_codeLevel,
      div_mul_eq_mul_div]
  simp [detectContours, hint, hc, hgray, contourAlpha]

theorem contour_color_range_based_witness :
    (1 ≤ (2 : ℕ)) ∧ interiorAt 3 3 1 1 ∧ isContourAt bdC4 sC4 1 1 = true ∧
    (detectContours bdC4 sC4).px 1 1 =
      ⟨jsByte (amendedContourGray 2 (bdC4.brightnessMap 1 1)),
       jsByte (amendedContourGray 2 (bdC4.brightnessMap 1 1)),
       jsByte (amendedContourGray 2 (bdC4.brightnessMap 1 1)),
       jsByteI ⌊(255 : ℚ) * (((100 : ℕ) : ℚ) / 100)⌋⟩ :=
  ⟨by decide, by decide, bdC4_isContour,
    contour_color_range_based bdC4 sC4 1 1 (by decide) (by decide) bdC4_isContour⟩

/- ## Canny hysteresis thresholding (src/unnamed/part_002, hysteresisThresholding) -/

/-- The strong edge pixel written by hysteresisThresholding. -/
def strongPx : Rgba := ⟨255, 255, 255, 255⟩

/-- The provisional weak edge pixel written by hysteresisThresholding. -/
def weakPx : Rgba := ⟨75, 75, 75, 255⟩

/-- First pass: double-threshold classification of every pixel, border
included (`pixel >= highThreshold` strong, `pixel >= lowThreshold` weak,
otherwise transparent). -/
def hysteresisPass1 (m : ℕ → ℕ → ℚ) (low high : ℚ) : ℕ × ℕ → Rgba := fun p =>
  if high ≤ m p.2 p.1 then strongPx
  else if low ≤ m p.2 p.1 then weakPx
  else Rgba.zero

/-- The 3-by-3 window scanned by the promotion pass, in the source's order
(dy outer loop, dx inner loop); it includes the pixel itself. -/
def window (p : ℕ × ℕ) : List (ℕ × ℕ) :=
  [(p.1 - 1, p.2 - 1), (p.1, p.2 - 1), (p.1 + 1, p.2 - 1),
   (p.1 - 1, p.2), (p.1, p.2), (p.1 + 1, p.2),
   (p.1 - 1, p.2 + 1), (p.1, p.2 + 1), (p.1 + 1, p.2 + 1)]

/-- `edges.data[neighborIndex] === strong` for some window position. -/
def hasStrongNeighbor (g : ℕ × ℕ → Rgba) (p : ℕ × ℕ) : Bool :=
  (window p).any fun q => (g q).r == 255

/-- One in-place visit of the promotion pass: a weak pixel is promoted to
strong (color channels only) when the current buffer holds a strong pixel
in its window, and cleared to transparent otherwise. -/
def hysteresisStep (g : ℕ × ℕ → Rgba) (p : ℕ × ℕ) : ℕ × ℕ → Rgba :=
  if (g p).r = 75 then
    if hasStrongNeighbor g p then Function.update g p ⟨255, 255, 255, (g p).a⟩
    else Function.update g p ⟨0, 0, 0, 0⟩
  else g

/-- hysteresisThresholding: classification followed by the in-place
raster-order promotion pass over the interior pixels. -/
def hysteresisThresholding (w h : ℕ) (m : ℕ → ℕ → ℚ) (low high : ℚ) :
    ℕ × ℕ → Rgba :=
  (interiorCoords w h).foldl hysteresisStep (hysteresisPass1 m low high)

/-- All pixel coordinates of a w-by-h buffer. -/
def allCoords (w h : ℕ) : List (ℕ × ℕ) :=
  (List.range h).flatMap fun y => (List.range w).map fun x => (x, y)

/-- Number of pixels of the edge map holding a non-zero value. -/
def edgePixelCount (w h : ℕ) (E : ℕ × ℕ → Rgba) : ℕ :=
  ((allCoords w h).filter fun p => (E p).r != 0).length

/- ## Supporting lemmas for the hysteresis claims -/

/-- A buffer value reachable in hysteresisThresholding. -/
def wfPx (v : Rgba) : Prop := v = Rgba.zero ∨ v = weakPx ∨ v = strongPx

lemma hysteresisStep_other (g : ℕ × ℕ → Rgba) (p q : ℕ × ℕ) (h : q ≠ p) :
    hysteresisStep g p q = g q := by
  unfold hysteresisStep
  split_ifs <;> simp [Function.update_noteq h]

lemma hysteresisStep_resolved (g : ℕ × ℕ → Rgba) (p q : ℕ × ℕ)
    (h : (g q).r ≠ 75) : hysteresisStep g p q = g q := by
  rcases eq_or_ne q p with rfl | hne
  · unfold hysteresisStep
    rw [if_neg h]
  · exact hysteresisStep_other g p q hne

lemma foldl_hysteresisStep_resolved (l : List (ℕ × ℕ)) (g : ℕ × ℕ → Rgba)
    (q : ℕ × ℕ) (h : (g q).r ≠ 75) : (l.foldl hysteresisStep g) q = g q := by
  induction l generalizing g with
  | nil => rfl
  | cons a l ih =>
    have hs := hysteresisStep_resolved g a q h
    rw [List.foldl_cons, ih (hysteresisStep g a) (by rw [hs]; exact h), hs]

lemma foldl_hysteresisStep_other (l : List (ℕ × ℕ)) (g : ℕ × ℕ → Rgba)
    (q : ℕ × ℕ) (h : q ∉ l) : (l.foldl hysteresisStep g) q = g q := by
  induction l generalizing g with
  | nil => rfl
  | cons a l ih =>
    have hqa : q ≠ a := fun hh => h (by simp [hh])
    rw [List.foldl_cons, ih _ (fun hh => h (by simp [hh])),
      hysteresisStep_other g a q hqa]

lemma hysteresisPass1_wf (m : ℕ → ℕ → ℚ) (low high : ℚ) (p : ℕ × ℕ) :
    wfPx (hysteresisPass1 m low high p) := by
  unfold hysteresisPass1 wfPx
  split_ifs <;> simp

lemma hysteresisStep_wf (g : ℕ × ℕ → Rgba) (p : ℕ × ℕ)
    (hwf : ∀ q, wfPx (g q)) : ∀ q, wfPx (hysteresisStep g p q) := by
  intro q
  rcases eq_or_ne q p with rfl | hne
  · unfold hysteresisStep
    split_ifs with h1 h2
    · have hwq : g q = weakPx := by
        rcases hwf q with h | h | h
        · rw [h] at h1; simp [Rgba.zero] at h1
        · exact h
        · rw [h] at h1; simp [strongPx] at h1
      rw [Function.update_same, hwq]
      right; right; rfl
    · rw [Function.update_same]
      left; rfl
    · exact hwf q
  · rw [hysteresisStep_other g p q hne]
    exact hwf q

lemma foldl_hysteresisStep_wf (l : List (ℕ × ℕ)) (g : ℕ × ℕ → Rgba)
    (hwf : ∀ q, wfPx (g q)) : ∀ q, wfPx ((l.foldl hysteresisStep g) q) := by
  induction l generalizing g with
  | nil => exact hwf
  | cons a l ih => exact ih _ (hysteresisStep_wf g a hwf)

lemma foldl_hysteresisStep_visits (l : List (ℕ × ℕ)) (g : ℕ × ℕ → Rgba)
    (p : ℕ × ℕ) (hp : p ∈ l) : ((l.foldl hysteresisStep g) p).r ≠ 75 := by
  induction l generalizing g with
  | nil => cases hp
  | cons a l ih =>
    rcases eq_or_ne p a with rfl | hne
    · rw [List.foldl_cons]
      by_cases h75 : (g p).r = 75
      · have hres : ((hysteresisStep g p) p).r ≠ 75 := by
          unfold hysteresisStep
          rw [if_pos h75]
          split_ifs <;> simp [Function.update_same]
        rw [foldl_hysteresisStep_resolved l _ p hres]
        exact hres
      · rw [foldl_hysteresisStep_resolved l _ p
          (by rw [hysteresisStep_resolved g p p h75]; exact h75),
          hysteresisStep_resolved g p p h75]
        exact h75
    · rw [List.foldl_cons]
      exact ih _ ((List.mem_cons.mp hp).resolve_left hne)

lemma foldl_isolated_weak (l : List (ℕ × ℕ)) (g : ℕ × ℕ → Rgba) (p : ℕ × ℕ)
    (hp : p ∈ l) (hweak : g p = weakPx)
    (hnbrs : ∀ q ∈ window p, q ≠ p → g q = Rgba.zero) :
    (l.foldl hysteresisStep g) p = Rgba.zero := by
  induction l generalizing g with
  | nil => cases hp
  | cons a l ih =>
    rcases eq_or_ne p a with rfl | hne
    · rw [List.foldl_cons]
      have hnostrong : hasStrongNeighbor g p = false := by
        unfold hasStrongNeighbor
        rw [List.any_eq_false]
        intro q hq
        rcases eq_or_ne q p with rfl | hqp
        · simp [hweak, weakPx]
        · simp [hnbrs q hq hqp, Rgba.zero]
      have hstep : (hysteresisStep g p) p = Rgba.zero := by
        unfold hysteresisStep
        rw [if_pos (by rw [hweak]; rfl), hnostrong]
        simp [Function.update_same, Rgba.zero]
      rw [foldl_hysteresisStep_resolved l _ p (by rw [hstep]; simp [Rgba.zero]), hstep]
    · rw [List.foldl_cons]
      refine ih (hysteresisStep g a) ((List.mem_cons.mp hp).resolve_left hne) ?_ ?_
      · rw [hysteresisStep_other g a p hne]
        exact hweak
      · intro q hq hqp
        have hz := hnbrs q hq hqp
        rw [hysteresisStep_resolved g a q (by rw [hz]; simp [Rgba.zero])]
        exact hz

lemma foldl_weak_with_strong (l : List (ℕ × ℕ)) (g : ℕ × ℕ → Rgba) (p : ℕ × ℕ)
    (hp : p ∈ l) (hweak : g p = weakPx)
    (hstrong : ∃ q ∈ window p, g q = strongPx) :
    (l.foldl hysteresisStep g) p = strongPx := by
  induction l generalizing g with
  | nil => cases hp
  | cons a l ih =>
    rcases eq_or_ne p a with rfl | hne
    · rw [List.foldl_cons]
      have hhs : hasStrongNeighbor g p = true := by
        rcases hstrong with ⟨q, hq, hqs⟩
        unfold hasStrongNeighbor
        rw [List.any_eq_true]
        exact ⟨q, hq, by simp [hqs, strongPx]⟩
      have hstep : (hysteresisStep g p) p = strongPx := by
        unfold hysteresisStep
        rw [if_pos (by rw [hweak]; rfl), hhs, if_pos rfl]
        simp [Function.update_same, hweak, weakPx, strongPx]
      rw [foldl_hysteresisStep_resolved l _ p (by rw [hstep]; simp [strongPx]), hstep]
    · rw [List.foldl_cons]
      refine ih (hysteresisStep g a) ((List.mem_cons.mp hp).resolve_left hne) ?_ ?_
      · rw [hysteresisStep_other g a p hne]
        exact hweak
      · rcases hstrong with ⟨q, hq, hqs⟩
        exact ⟨q, hq, by
          rw [hysteresisStep_resolved g a q (by rw [hqs]; simp [strongPx])]
          exact hqs⟩

/-- Rank of a buffer value in the promotion order: transparent, weak, strong. -/
def rank (v : Rgba) : ℕ := if v.r = 255 then 2 else if v.r = 75 then 1 else 0

lemma hysteresisStep_dominates (g₁ g₂ : ℕ × ℕ → Rgba) (p : ℕ × ℕ)
    (hdom : ∀ q, rank (g₂ q) ≤ rank (g₁ q)) :
    ∀ q, rank (hysteresisStep g₂ p q) ≤ rank (hysteresisStep g₁ p q) := by
  intro q
  rcases eq_or_ne q p with rfl | hne
  · by_cases h2 : (g₂ q).r = 75
    · by_cases h1 : (g₁ q).r = 255
      · have hstep1 : (hysteresisStep g₁ q) q = g₁ q :=
          hysteresisStep_resolved g₁ q q (by rw [h1]; simp)
        rw [hstep1]
        unfold rank
        rw [if_pos h1]
        split_ifs <;> omega
      · have h1w : (g₁ q).r = 75 := by
          have := hdom q
          unfold rank at this
          split_ifs at this <;> omega
        by_cases hsn : hasStrongNeighbor g₂ q = true
        · have hsn1 : hasStrongNeighbor g₁ q = true := by
            unfold hasStrongNeighbor at hsn ⊢
            rw [List.any_eq_true] at hsn ⊢
            rcases hsn with ⟨q₀, hq₀, hs⟩
            refine ⟨q₀, hq₀, ?_⟩
            simp only [beq_iff_eq] at hs ⊢
            have := hdom q₀
            unfold rank at this
            rw [if_pos hs] at this
            split_ifs at this <;> omega
          unfold hysteresisStep
          rw [if_pos h2, if_pos h1w, hsn, hsn1]
          simp [Function.update_same, rank]
        · unfold hysteresisStep
          rw [if_pos h2, if_pos h1w, if_neg hsn]
          split_ifs <;> simp [Function.update_same, rank]
    · have hstep2 : (hysteresisStep g₂ q) q = g₂ q := hysteresisStep_resolved g₂ q q h2
      rw [hstep2]
      by_cases h2s : (g₂ q).r = 255
      · have h1s : (g₁ q).r = 255 := by
          have := hdom q
          unfold rank at this
          rw [if_pos h2s] at this
          split_ifs at this <;> omega
        rw [hysteresisStep_resolved g₁ q q (by rw [h1s]; simp)]
        exact hdom q
      · unfold rank
        rw [if_neg h2s, if_neg h2]
        omega
  · rw [hysteresisStep_other g₁ p q hne, hysteresisStep_other g₂ p q hne]
    exact hdom q

lemma foldl_hysteresisStep_dominates (l : List (ℕ × ℕ)) (g₁ g₂ : ℕ × ℕ → Rgba)
    (hdom : ∀ q, rank (g₂ q) ≤ rank (g₁ q)) :
    ∀ q, rank ((l.foldl hysteresisStep g₂) q) ≤ rank ((l.foldl hysteresisStep g₁) q) := by
  induction l generalizing g₁ g₂ with
  | nil => exact hdom
  | cons a l ih =>
    exact ih (hysteresisStep g₁ a) (hysteresisStep g₂ a)
      (hysteresisStep_dominates g₁ g₂ a hdom)

lemma mem_interiorCoords (w h : ℕ) (p : ℕ × ℕ) :
    p ∈ interiorCoords w h ↔ interiorAt w h p.1 p.2 := by
  unfold interiorCoords interiorAt
  simp only [List.mem_flatMap, List.mem_map, List.mem_range]
  constructor
  · rintro ⟨j, hj, i, hi, rfl⟩
    simp only
    omega
  · rintro ⟨h1, h2, h3, h4⟩
    exact ⟨p.2 - 1, by omega, p.1 - 1, by omega, by
      rcases p with ⟨x, y⟩
      simp only [Prod.mk.injEq]
      omega⟩

/- ## Claim theorems: hysteresis thresholding -/

/-- C2 counterexample: on a 1-by-1 image whose only pixel has magnitude 100
with thresholds 50/150, the promotion pass (interior pixels only) never
visits the border pixel, so the final map holds the provisional weak value
75 with alpha 255: neither strong nor fully transparent. -/
theorem hysteresis_border_weak_survives :
    hysteresisThresholding 1 1 (fun _ _ => (100 : ℚ)) 50 150 (0, 0) = weakPx ∧
    weakPx.r ≠ 255 ∧ weakPx.a ≠ 0 := by
  refine ⟨?_, by norm_num [weakPx], by norm_num [weakPx]⟩
  have hco : interiorCoords 1 1 = [] := rfl
  unfold hysteresisThresholding
  rw [hco]
  norm_num [hysteresisPass1]

/-- C2 amended: with lowThreshold ≤ highThreshold, hysteresisThresholding
classifies pixels ≥ high as strong and pixels below low as transparent
everywhere; the in-place promotion pass visits interior pixels only, so a
weak border pixel keeps the provisional value 75 with alpha 255; every
interior pixel ends strong or fully transparent; an interior weak pixel all
of whose window neighbors are below low is discarded; an interior weak
pixel with a window neighbor ≥ high is promoted to strong. -/
theorem hysteresis_classification (w h : ℕ) (m : ℕ → ℕ → ℚ) (low high : ℚ)
    (hlh : low ≤ high) :
    (∀ p : ℕ × ℕ, high ≤ m p.2 p.1 →
        hysteresisThresholding w h m low high p = strongPx) ∧
    (∀ p : ℕ × ℕ, m p.2 p.1 < low →
        hysteresisThresholding w h m low high p = Rgba.zero) ∧
    (∀ p : ℕ × ℕ, ¬ interiorAt w h p.1 p.2 → low ≤ m p.2 p.1 → m p.2 p.1 < high →
        hysteresisThresholding w h m low high p = weakPx) ∧
    (∀ p : ℕ × ℕ, interiorAt w h p.1 p.2 →
        hysteresisThresholding w h m low high p = Rgba.zero ∨
        hysteresisThresholding w h m low high p = strongPx) ∧
    (∀ p : ℕ × ℕ, interiorAt w h p.1 p.2 → low ≤ m p.2 p.1 → m p.2 p.1 < high →
        (∀ q ∈ window p, q ≠ p → m q.2 q.1 < low) →
        hysteresisThresholding w h m low high p = Rgba.zero) ∧
    (∀ p : ℕ × ℕ, interiorAt w h p.1 p.2 → low ≤ m p.2 p.1 → m p.2 p.1 < high →
        (∃ q ∈ window p, high ≤ m q.2 q.1) →
        hysteresisThresholding w h m low high p = strongPx) := by
  have hpass : ∀ p : ℕ × ℕ, low ≤ m p.2 p.1 → m p.2 p.1 < high →
      hysteresisPass1 m low high p = weakPx := by
    intro p h1 h2
    unfold hysteresisPass1
    rw [if_neg (by linarith), if_pos h1]
  refine ⟨?_, ?_, ?_, ?_, ?_, ?_⟩
  · intro p hp
    have h1 : hysteresisPass1 m low high p = strongPx := by
      unfold hysteresisPass1
      rw [if_pos hp]
    unfold hysteresisThresholding
    rw [foldl_hysteresisStep_resolved _ _ p (by rw [h1]; simp [strongPx]), h1]
  · intro p hp
    have h1 : hysteresisPass1 m low high p = Rgba.zero := by
      unfold hysteresisPass1
      rw [if_neg (by linarith), if_neg (by linarith)]
    unfold hysteresisThresholding
    rw [foldl_hysteresisStep_resolved _ _ p (by rw [h1]; simp [Rgba.zero]), h1]
  · intro p hp h1 h2
    unfold hysteresisThresholding
    rw [foldl_hysteresisStep_other _ _ p
      (fun hmem => hp ((mem_interiorCoords w h p).mp hmem))]
    exact hpass p h1 h2
  · intro p hp
    have hmem := (mem_interiorCoords w h p).mpr hp
    have hwf := foldl_hysteresisStep_wf (interiorCoords w h)
      (hysteresisPass1 m low high) (hysteresisPass1_wf m low high) p
    have hr := foldl_hysteresisStep_visits (interiorCoords w h)
      (hysteresisPass1 m low high) p hmem
    unfold hysteresisThresholding
    rcases hwf with h | h | h
    · exact Or.inl h
    · exact absurd (by rw [h]; rfl) hr
    · exact Or.inr h
  · intro p hp h1 h2 hnbrs
    have hmem := (mem_interiorCoords w h p).mpr hp
    unfold hysteresisThresholding
    refine foldl_isolated_weak _ _ p hmem (hpass p h1 h2) ?_
    intro q hq hqp
    have := hnbrs q hq hqp
    unfold hysteresisPass1
    rw [if_neg (by linarith), if_neg (by linarith)]
  · intro p hp h1 h2 hstrong
    have hmem := (mem_interiorCoords w h p).mpr hp
    unfold hysteresisThresholding
    refine foldl_weak_with_strong _ _ p hmem (hpass p h1 h2) ?_
    rcases hstrong with ⟨q, hq, hqs⟩
    exact ⟨q, hq, by unfold hysteresisPass1; rw [if_pos hqs]⟩

lemma hysteresis_witness_facts :
    (50 : ℚ) ≤ 150 ∧ (50 : ℚ) ≤ 100 ∧ (100 : ℚ) < 150 ∧ (150 : ℚ) ≤ 200 := by
  norm_num

/-- A 3-by-3 magnitude map: a weak center with a strong corner neighbor. -/
def magW : ℕ → ℕ → ℚ := fun y x => if y = 0 ∧ x = 0 then 200 else 100

theorem hysteresis_classification_witness :
    hysteresisThresholding 3 3 magW 50 150 (1, 1) = strongPx :=
  (hysteresis_classification 3 3 magW 50 150 hysteresis_witness_facts.1).2.2.2.2.2
    (1, 1) (by decide)
    (by exact hysteresis_witness_facts.2.1)
    (by exact hysteresis_witness_facts.2.2.1)
    ⟨(0, 0), by decide, by exact hysteresis_witness_facts.2.2.2⟩

/-- C8: for a fixed suppressed gradient map and fixed lowThreshold, raising
the highThreshold never increases the number of non-zero pixels in the edge
map produced by hysteresisThresholding (the only stage of detectEdges that
reads the thresholds). -/
theorem edgeCount_antitone_in_high (w h : ℕ) (m : ℕ → ℕ → ℚ) (low h₁ h₂ : ℚ)
    (hle : h₁ ≤ h₂) :
    edgePixelCount w h (hysteresisThresholding w h m low h₂) ≤
      edgePixelCount w h (hysteresisThresholding w h m low h₁) := by
  have hdom0 : ∀ q : ℕ × ℕ,
      rank (hysteresisPass1 m low h₂ q) ≤ rank (hysteresisPass1 m low h₁ q) := by
    intro q
    unfold hysteresisPass1 rank
    split_ifs with a1 a2 a3 a4 a5 a6 a7 <;>
      first
        | omega
        | (exfalso; revert a1; simp [strongPx, weakPx, Rgba.zero] at *) <;> linarith
  have hdom := foldl_hysteresisStep_dominates (interiorCoords w h) _ _ hdom0
  unfold edgePixelCount hysteresisThresholding
  apply List.Sublist.length_le
  apply List.monotone_filter_right
  intro p hpix
  have hwf₂ := foldl_hysteresisStep_wf (interiorCoords w h)
    (hysteresisPass1 m low h₂) (hysteresisPass1_wf m low h₂) p
  have hwf₁ := foldl_hysteresisStep_wf (interiorCoords w h)
    (hysteresisPass1 m low h₁) (hysteresisPass1_wf m low h₁) p
  have hd := hdom p
  rw [bne_iff_ne] at hpix ⊢
  rcases hwf₁ with h1 | h1 | h1
  · exfalso
    rcases hwf₂ with h2 | h2 | h2
    · exact hpix (by rw [h2]; rfl)
    · rw [h1, h2] at hd
      simp [rank, weakPx, Rgba.zero] at hd
    · rw [h1, h2] at hd
      simp [rank, strongPx, Rgba.zero] at hd
  · rw [h1]
    simp [weakPx]
  · rw [h1]
    simp [strongPx]

lemma hundred_le_onefifty : (100 : ℚ) ≤ 150 := by norm_num

theorem edgeCount_antitone_in_high_witness :
    edgePixelCount 3 3 (hysteresisThresholding 3 3 magW 50 150) ≤
      edgePixelCount 3 3 (hysteresisThresholding 3 3 magW 50 100) :=
  edgeCount_antitone_in_high 3 3 magW 50 100 150 hundred_le_onefifty

/- ## Otsu automatic thresholds (src/unnamed/part_002) -/

/-- BT.601 luminance, as computed inline by calculateHistogram. -/
def luminance (c : Rgba) : ℚ := 0.299 * c.r + 0.587 * c.g + 0.114 * c.b

/-- calculateHistogram: 256-bin histogram of rounded luminance values. -/
def calculateHistogram (img : Image) : ℕ → ℕ := fun v =>
  ((allCoords img.width img.height).filter fun p =>
    decide (jsRound (luminance (img.px p.1 p.2)) = (v : ℤ))).length

/-- The inner accumulation loop of otsuMethod: class counts and sums
(w0, sum0, w1, sum1) for candidate threshold t; class 0 is `i <= t`. -/
def otsuSums (hist : ℕ → ℕ) (t : ℕ) : ℕ × ℕ × ℕ × ℕ :=
  (List.range 256).foldl
    (fun s i =>
      if i ≤ t then (s.1 + hist i, s.2.1 + i * hist i, s.2.2.1, s.2.2.2)
      else (s.1, s.2.1, s.2.2.1 + hist i, s.2.2.2 + i * hist i))
    (0, 0, 0, 0)

/-- One candidate step of otsuMethod: a degenerate split (w0 or w1 zero) is
skipped; otherwise the candidate replaces the best exactly when its
between-class variance strictly exceeds the best so far. -/
def otsuStep (hist : ℕ → ℕ) (total : ℕ) (s : ℕ × ℚ) (t : ℕ) : ℕ × ℚ :=
  let q := otsuSums hist t
  if q.1 = 0 ∨ q.2.2.1 = 0 then s
  else
    let mean0 : ℚ := (q.2.1 : ℚ) / (q.1 : ℚ)
    let mean1 : ℚ := (q.2.2.2 : ℚ) / (q.2.2.1 : ℚ)
    let variance := ((q.1 : ℚ) / (total : ℚ)) * ((q.2.2.1 : ℚ) / (total : ℚ)) *
      (mean0 - mean1) ^ 2
    if s.2 < variance then (t, variance) else s

/-- otsuMethod: best threshold and variance over the 256 candidates. -/
def otsuMethod (hist : ℕ → ℕ) : ℕ × ℚ :=
  (List.range 256).foldl
    (otsuStep hist ((List.range 256).foldl (fun a i => a + hist i) 0)) (0, 0)

/-- The threshold pair derived from the Otsu threshold:
low = round(0.5 t), high = round(1.5 t). -/
def otsuThresholds (hist : ℕ → ℕ) : ℤ × ℤ :=
  (jsRound (((otsuMethod hist).1 : ℚ) * 0.5), jsRound (((otsuMethod hist).1 : ℚ) * 1.5))

/-- calculateOptimalThresholds: Otsu thresholds of the image's histogram. -/
def calculateOptimalThresholds (img : Image) : ℤ × ℤ :=
  otsuThresholds (calculateHistogram img)

/- ## Supporting lemmas for the Otsu claim -/

lemma foldl_add_eq_sum (l : List ℕ) (f : ℕ → ℕ) (a : ℕ) :
    l.foldl (fun a i => a + f i) a = a + (l.map f).sum := by
  induction l generalizing a with
  | nil => simp
  | cons i l ih => simp [ih, Nat.add_assoc]

lemma list_range_map_sum (k : ℕ) (f : ℕ → ℕ) :
    ((List.range k).map f).sum = ∑ i in Finset.range k, f i := by
  induction k with
  | zero => rfl
  | succ k ih =>
    rw [Finset.sum_range_succ, List.range_succ, List.map_append, List.sum_append, ih]
    simp

lemma sum_support_pair (F : ℕ → ℕ) (h : ∀ i, i ≠ 30 → i ≠ 220 → F i = 0) :
    ∑ i in Finset.range 256, F i = F 30 + F 220 := by
  have hsplit : ∀ i ∈ Finset.range 256,
      F i = (if i = 30 then F 30 else 0) + (if i = 220 then F 220 else 0) := by
    intro i _
    by_cases h30 : i = 30
    · subst h30; norm_num
    · by_cases h220 : i = 220
      · subst h220; norm_num
      · simp [h30, h220, h i h30 h220]
  rw [Finset.sum_congr rfl hsplit, Finset.sum_add_distrib,
    Finset.sum_ite_eq' (Finset.range 256) 30 (fun _ => F 30),
    Finset.sum_ite_eq' (Finset.range 256) 220 (fun _ => F 220)]
  norm_num

lemma otsuSums_spec (hist : ℕ → ℕ) (t : ℕ) :
    otsuSums hist t =
      (∑ i in Finset.range 256, if i ≤ t then hist i else 0,
       ∑ i in Finset.range 256, if i ≤ t then i * hist i else 0,
       ∑ i in Finset.range 256, if i ≤ t then 0 else hist i,
       ∑ i in Finset.range 256, if i ≤ t then 0 else i * hist i) := by
  have key : ∀ (l : List ℕ) (acc : ℕ × ℕ × ℕ × ℕ),
      l.foldl
        (fun s i =>
          if i ≤ t then (s.1 + hist i, s.2.1 + i * hist i, s.2.2.1, s.2.2.2)
          else (s.1, s.2.1, s.2.2.1 + hist i, s.2.2.2 + i * hist i)) acc =
      (acc.1 + (l.map fun i => if i ≤ t then hist i else 0).sum,
       acc.2.1 + (l.map fun i => if i ≤ t then i * hist i else 0).sum,
       acc.2.2.1 + (l.map fun i => if i ≤ t then 0 else hist i).sum,
       acc.2.2.2 + (l.map fun i => if i ≤ t then 0 else i * hist i).sum) := by
    intro l
    induction l with
    | nil => intro acc; simp
    | cons i l ih =>
      intro acc
      by_cases hi : i ≤ t <;>
        simp [hi, ih, Nat.add_assoc]
  unfold otsuSums
  rw [key]
  simp [list_range_map_sum]

section otsuTwoSpike

variable (hist : ℕ → ℕ) (n : ℕ)

/-- Class sums of a two-spike histogram below the lower spike. -/
lemma otsuSums_twoSpike_lt30 (h30 : hist 30 = n) (h220 : hist 220 = n)
    (hother : ∀ i, i ≠ 30 → i ≠ 220 → hist i = 0) (t : ℕ) (ht : t < 30) :
    (otsuSums hist t).1 = 0 := by
  rw [otsuSums_spec]
  show (∑ i in Finset.range 256, if i ≤ t then hist i else 0) = 0
  rw [sum_support_pair _ (by intro i hi1 hi2; simp [hother i hi1 hi2])]
  rw [if_neg (by omega), if_neg (by omega)]

lemma otsuSums_twoSpike_mid (h30 : hist 30 = n) (h220 : hist 220 = n)
    (hother : ∀ i, i ≠ 30 → i ≠ 220 → hist i = 0) (t : ℕ) (ht1 : 30 ≤ t)
    (ht2 : t < 220) :
    otsuSums hist t = (n, 30 * n, n, 220 * n) := by
  rw [otsuSums_spec]
  rw [sum_support_pair _ (by intro i hi1 hi2; simp [hother i hi1 hi2]),
    sum_support_pair _ (by intro i hi1 hi2; simp [hother i hi1 hi2]),
    sum_support_pair _ (by intro i hi1 hi2; simp [hother i hi1 hi2]),
    sum_support_pair _ (by intro i hi1 hi2; simp [hother i hi1 hi2])]
  rw [if_pos ht1, if_neg (by omega), if_pos ht1, if_neg (by omega),
    if_pos ht1, if_neg (by omega), if_pos ht1, if_neg (by omega)]
  simp [h30, h220]

lemma otsuSums_twoSpike_ge220 (h30 : hist 30 = n) (h220 : hist 220 = n)
    (hother : ∀ i, i ≠ 30 → i ≠ 220 → hist i = 0) (t : ℕ) (ht : 220 ≤ t) :
    (otsuSums hist t).2.2.1 = 0 := by
  rw [otsuSums_spec]
  show (∑ i in Finset.range 256, if i ≤ t then 0 else hist i) = 0
  rw [sum_support_pair _ (by intro i hi1 hi2; simp [hother i hi1 hi2])]
  rw [if_pos (by omega), if_pos (by omega)]

lemma otsu_total_twoSpike (h30 : hist 30 = n) (h220 : hist 220 = n)
    (hother : ∀ i, i ≠ 30 → i ≠ 220 → hist i = 0) :
    (List.range 256).foldl (fun a i => a + hist i) 0 = 2 * n := by
  rw [foldl_add_eq_sum, list_range_map_sum, sum_support_pair _ hother, h30, h220]
  omega

lemma foldl_otsuStep_const (total : ℕ) (l : List ℕ) (s : ℕ × ℚ)
    (h : ∀ t ∈ l, otsuStep hist total s t = s) :
    l.foldl (otsuStep hist total) s = s := by
  induction l with
  | nil => rfl
  | cons a l ih =>
    rw [List.foldl_cons, h a (by simp)]
    exact ih fun t ht => h t (by simp [ht])

lemma otsu_twoSpike (hn : 1 ≤ n) (h30 : hist 30 = n) (h220 : hist 220 = n)
    (hother : ∀ i, i ≠ 30 → i ≠ 220 → hist i = 0) :
    otsuMethod hist = (30, 9025) := by
  have hq : ((n : ℚ)) ≠ 0 := by positivity
  have hvar : ∀ t : ℕ, 30 ≤ t → t < 220 →
      otsuStep hist (2 * n) (30, 9025) t = (30, 9025) := by
    intro t ht1 ht2
    unfold otsuStep
    rw [otsuSums_twoSpike_mid hist n h30 h220 hother t ht1 ht2]
    have hnz : ¬ (n = 0 ∨ n = 0) := by omega
    simp only [hnz, if_false]
    have hv : ((n : ℚ) / ((2 * n : ℕ) : ℚ)) * ((n : ℚ) / ((2 * n : ℕ) : ℚ)) *
        (((30 * n : ℕ) : ℚ) / (n : ℚ) - ((220 * n : ℕ) : ℚ) / (n : ℚ)) ^ 2 = 9025 := by
      push_cast
      field_simp
      ring
    rw [hv]
    norm_num
  have hstep30 : otsuStep hist (2 * n) (0, 0) 30 = (30, 9025) := by
    unfold otsuStep
    rw [otsuSums_twoSpike_mid hist n h30 h220 hother 30 (by omega) (by omega)]
    have hnz : ¬ (n = 0 ∨ n = 0) := by omega
    simp only [hnz, if_false]
    have hv : ((n : ℚ) / ((2 * n : ℕ) : ℚ)) * ((n : ℚ) / ((2 * n : ℕ) : ℚ)) *
        (((30 * n : ℕ) : ℚ) / (n : ℚ) - ((220 * n : ℕ) : ℚ) / (n : ℚ)) ^ 2 = 9025 := by
      push_cast
      field_simp
      ring
    rw [hv]
    norm_num
  unfold otsuMethod
  rw [otsu_total_twoSpike hist n h30 h220 hother]
  rw [show (256 : ℕ) = 31 + 225 from rfl, List.range_add, List.foldl_append]
  rw [show (31 : ℕ) = 30 + 1 from rfl, List.range_succ, List.foldl_append]
  rw [foldl_otsuStep_const hist (2 * n) (List.range 30) (0, 0) ?hlow]
  case hlow =>
    intro t ht
    rw [List.mem_range] at ht
    unfold otsuStep
    rw [if_pos (Or.inl (otsuSums_twoSpike_lt30 hist n h30 h220 hother t ht))]
  rw [show List.foldl (otsuStep hist (2 * n)) (0, 0) [30] =
    otsuStep hist (2 * n) (0, 0) 30 from rfl, hstep30]
  refine foldl_otsuStep_const hist (2 * n) _ _ ?_
  intro t ht
  rw [List.mem_map] at ht
  rcases ht with ⟨x, hx, rfl⟩
  rw [List.mem_range] at hx
  by_cases hcase : 30 + 1 + x < 220
  · exact hvar (30 + 1 + x) (by omega) hcase
  · unfold otsuStep
    rw [if_pos (Or.inr (otsuSums_twoSpike_ge220 hist n h30 h220 hother _ (by omega)))]

end otsuTwoSpike

/- ## Claim theorems: Otsu thresholds -/

/-- A 2-by-1 image: one pixel of luminance 30, one of luminance 220. -/
def imgBimodal : Image :=
  ⟨2, 1, fun x _ => if x = 0 then ⟨30, 30, 30, 255⟩ else ⟨220, 220, 220, 255⟩⟩

lemma histBimodal (v : ℕ) :
    calculateHistogram imgBimodal v = if v = 30 ∨ v = 220 then 1 else 0 := by
  have h30 : jsRound (luminance ⟨30, 30, 30, 255⟩) = 30 := by
    norm_num [jsRound, luminance]
  have h220 : jsRound (luminance ⟨220, 220, 220, 255⟩) = 220 := by
    norm_num [jsRound, luminance]
  have hcoords : allCoords imgBimodal.width imgBimodal.height = [(0, 0), (1, 0)] := rfl
  have e1 : imgBimodal.px 0 0 = ⟨30, 30, 30, 255⟩ := rfl
  have e2 : imgBimodal.px 1 0 = ⟨220, 220, 220, 255⟩ := rfl
  unfold calculateHistogram
  rw [hcoords]
  simp only [List.filter_cons, List.filter_nil, e1, e2, h30, h220]
  by_cases h1 : v = 30
  · subst h1
    norm_num
  · by_cases h2 : v = 220
    · subst h2
      norm_num
    · have hne1 : ¬ ((30 : ℤ) = (v : ℤ)) := by omega
      have hne2 : ¬ ((220 : ℤ) = (v : ℤ)) := by omega
      simp [hne1, hne2, h1, h2]

lemma histBimodal_other (i : ℕ) (h1 : i ≠ 30) (h2 : i ≠ 220) :
    calculateHistogram imgBimodal i = 0 := by
  rw [histBimodal]
  simp [h1, h2]

/-- C6 counterexample: on the bimodal image (half the pixels at luminance 30,
half at 220) the Otsu threshold is 30 - the first maximizer of the flat
between-class variance, i.e. the lower mode - and calculateOptimalThresholds
returns (15, 45), nowhere near the midpoint 125. -/
theorem otsu_bimodal_not_near_midpoint :
    (otsuMethod (calculateHistogram imgBimodal)).1 = 30 ∧
    calculateOptimalThresholds imgBimodal = (15, 45) ∧
    ¬ (100 ≤ (otsuMethod (calculateHistogram imgBimodal)).1 ∧
        (otsuMethod (calculateHistogram imgBimodal)).1 ≤ 150) := by
  have hto := otsu_twoSpike (calculateHistogram imgBimodal) 1 (by norm_num)
    (by rw [histBimodal]; norm_num) (by rw [histBimodal]; norm_num) histBimodal_other
  refine ⟨by rw [hto], ?_, by rw [hto]; norm_num⟩
  unfold calculateOptimalThresholds otsuThresholds
  rw [hto]
  norm_num [jsRound]

/-- C6 amended: for every image whose luminance histogram has n pixels at 30,
n pixels at 220 (n ≥ 1) and nothing elsewhere, otsuMethod returns the lower
mode t = 30 (the first candidate attaining the flat maximal between-class
variance), and the derived thresholds are low = 15 and high = 45, which do
satisfy low < high but are not near the midpoint 125. -/
theorem otsu_bimodal_thresholds (hist : ℕ → ℕ) (n : ℕ) (hn : 1 ≤ n)
    (h30 : hist 30 = n) (h220 : hist 220 = n)
    (hother : ∀ i, i ≠ 30 → i ≠ 220 → hist i = 0) :
    (otsuMethod hist).1 = 30 ∧ otsuThresholds hist = (15, 45) ∧ (15 : ℤ) < 45 := by
  have hto := otsu_twoSpike hist n hn h30 h220 hother
  refine ⟨by rw [hto], ?_, by norm_num⟩
  unfold otsuThresholds
  rw [hto]
  norm_num [jsRound]

/-- A synthetic two-spike histogram with one pixel per mode. -/
def histTwoSpike : ℕ → ℕ := fun i => if i = 30 ∨ i = 220 then 1 else 0

theorem otsu_bimodal_thresholds_witness :
    (otsuMethod histTwoSpike).1 = 30 ∧ otsuThresholds histTwoSpike = (15, 45) ∧
      (15 : ℤ) < 45 :=
  otsu_bimodal_thresholds histTwoSpike 1 (by decide) (by simp [histTwoSpike])
    (by simp [histTwoSpike]) (fun i h1 h2 => by simp [histTwoSpike, h1, h2])

/- ## Zhang-Suen thinning (useEdgeProcessing.ts, thinEdges) -/

/-- The 8 neighbors of a pixel as 0/1 values, in the source's ring order
N, NE, E, SE, S, SW, W, NW. -/
def thinNeighbors (g : ℕ × ℕ → Rgba) (p : ℕ × ℕ) : List ℕ :=
  [if (g (p.1, p.2 - 1)).r > 0 then 1 else 0,
   if (g (p.1 + 1, p.2 - 1)).r > 0 then 1 else 0,
   if (g (p.1 + 1, p.2)).r > 0 then 1 else 0,
   if (g (p.1 + 1, p.2 + 1)).r > 0 then 1 else 0,
   if (g (p.1, p.2 + 1)).r > 0 then 1 else 0,
   if (g (p.1 - 1, p.2 + 1)).r > 0 then 1 else 0,
   if (g (p.1 - 1, p.2)).r > 0 then 1 else 0,
   if (g (p.1 - 1, p.2 - 1)).r > 0 then 1 else 0]

/-- Number of 0 to 1 transitions around the neighbor ring. -/
def ringTransitions (ns : List ℕ) : ℕ :=
  ((List.range 8).filter fun i =>
    decide (ns.getD i 0 = 0 ∧ ns.getD ((i + 1) % 8) 0 = 1)).length

/-- The Zhang-Suen removal test of the source: an edge pixel with 2..6 edge
neighbors, exactly one ring transition, and the two zero-product conditions. -/
def thinRemovable (g : ℕ × ℕ → Rgba) (p : ℕ × ℕ) : Bool :=
  ((g p).r != 0) &&
  (let ns := thinNeighbors g p
   decide (2 ≤ ns.sum) && decide (ns.sum ≤ 6) &&
   decide (ringTransitions ns = 1) &&
   decide (ns.getD 0 0 * ns.getD 2 0 * ns.getD 4 0 = 0) &&
   decide (ns.getD 2 0 * ns.getD 4 0 * ns.getD 6 0 = 0))

/-- The indices collected by one scan of the thinning loop. -/
def toRemove (w h : ℕ) (g : ℕ × ℕ → Rgba) : List (ℕ × ℕ) :=
  (interiorCoords w h).filter (thinRemovable g)

/-- Clearing the color channels of every collected pixel (alpha untouched,
exactly as the source's forEach). -/
def removeAll (rem : List (ℕ × ℕ)) (g : ℕ × ℕ → Rgba) : ℕ × ℕ → Rgba :=
  fun p => if p ∈ rem then ⟨0, 0, 0, (g p).a⟩ else g p

/-- One iteration of the while loop of thinEdges. -/
def thinStep (w h : ℕ) (g : ℕ × ℕ → Rgba) : ℕ × ℕ → Rgba :=
  removeAll (toRemove w h g) g

/-- The while loop: stop when an iteration removes nothing or the fuel
(the 100-iteration safety cap) runs out. -/
def thinLoop (w h : ℕ) : ℕ → (ℕ × ℕ → Rgba) → (ℕ × ℕ → Rgba)
  | 0, g => g
  | fuel + 1, g => if toRemove w h g = [] then g else thinLoop w h fuel (thinStep w h g)

/-- thinEdges: the thinning loop with its 100-iteration safety cap. -/
def thinEdges (w h : ℕ) (g : ℕ × ℕ → Rgba) : ℕ × ℕ → Rgba := thinLoop w h 100 g

/- ## Supporting lemmas for the thinning claim -/

lemma thinStep_of_empty {w h : ℕ} {g : ℕ × ℕ → Rgba}
    (he : toRemove w h g = []) : thinStep w h g = g := by
  funext p
  unfold thinStep removeAll
  rw [he]
  simp

lemma thinLoop_eq_iterate (w h fuel : ℕ) (g : ℕ × ℕ → Rgba) :
    thinLoop w h fuel g = (thinStep w h)^[fuel] g := by
  induction fuel generalizing g with
  | zero => rfl
  | succ f ih =>
    unfold thinLoop
    by_cases he : toRemove w h g = []
    · rw [if_pos he, Function.iterate_succ_apply, thinStep_of_empty he,
        Function.iterate_fixed (thinStep_of_empty he) f]
    · rw [if_neg he, ih, Function.iterate_succ_apply]

lemma thinStep_support (w h : ℕ) (g : ℕ × ℕ → Rgba) (p : ℕ × ℕ)
    (hp : (thinStep w h g p).r ≠ 0) : (g p).r ≠ 0 := by
  unfold thinStep removeAll at hp
  by_cases hmem : p ∈ toRemove w h g
  · rw [if_pos hmem] at hp
    simp at hp
  · rwa [if_neg hmem] at hp

lemma thinStep_count_le (w h : ℕ) (g : ℕ × ℕ → Rgba) :
    edgePixelCount w h (thinStep w h g) ≤ edgePixelCount w h g := by
  unfold edgePixelCount
  apply List.Sublist.length_le
  apply List.monotone_filter_right
  intro p hp
  rw [bne_iff_ne] at hp ⊢
  exact thinStep_support w h g p hp

/- ## Claim theorems: thinning termination -/

/-- C9: thinEdges is the thinning step iterated under the 100-iteration
safety cap: it equals the 100-fold iterate, every iteration only clears
pixels so the edge-pixel count is monotonically non-increasing, and as soon
as some iteration k ≤ 100 removes nothing the loop output is that stable
buffer. -/
theorem thinEdges_terminates (w h : ℕ) (g : ℕ × ℕ → Rgba) :
    thinEdges w h g = (thinStep w h)^[100] g ∧
    (∀ k : ℕ, edgePixelCount w h ((thinStep w h)^[k + 1] g) ≤
        edgePixelCount w h ((thinStep w h)^[k] g)) ∧
    (∀ k : ℕ, k ≤ 100 → toRemove w h ((thinStep w h)^[k] g) = [] →
        thinEdges w h g = (thinStep w h)^[k] g) := by
  refine ⟨thinLoop_eq_iterate w h 100 g, ?_, ?_⟩
  · intro k
    rw [Function.iterate_succ_apply']
    exact thinStep_count_le w h _
  · intro k hk he
    show thinLoop w h 100 g = _
    rw [thinLoop_eq_iterate w h 100 g, show (100 : ℕ) = (100 - k) + k by omega,
      Function.iterate_add_apply]
    exact Function.iterate_fixed (thinStep_of_empty he) (100 - k)

theorem thinEdges_terminates_witness :
    thinEdges 1 1 (fun _ : ℕ × ℕ => Rgba.zero) = (thinStep 1 1)^[100] (fun _ : ℕ × ℕ => Rgba.zero) ∧
    thinEdges 1 1 (fun _ : ℕ × ℕ => Rgba.zero) = (thinStep 1 1)^[0] (fun _ : ℕ × ℕ => Rgba.zero) :=
  ⟨(thinEdges_terminates 1 1 (fun _ : ℕ × ℕ => Rgba.zero)).1,
    (thinEdges_terminates 1 1 (fun _ : ℕ × ℕ => Rgba.zero)).2.2 0 (by decide) rfl⟩

/- ## Frequency separation round-trip (useFrequencySeparation.ts,
combineWithLinearLight of useCanvasRenderer.ts) -/

/-- The combined high-frequency channel encoding of separateFrequencies:
`Math.round(Math.max(0, Math.min(255, 128 + diff / 2)))`, diff = original − low. -/
def combinedChannel (orig low : ℕ) : ℕ :=
  (jsRound (max 0 (min 255 ((128 : ℚ) + ((orig : ℚ) - (low : ℚ)) / 2)))).toNat

/-- One channel of the Linear Light blend of combineWithLinearLight:
`Math.min(255, Math.max(0, base + 2 * (overlay - 128)))`. -/
def linearLightChannel (base overlay : ℕ) : ℕ :=
  (min 255 (max 0 ((base : ℤ) + 2 * ((overlay : ℤ) - 128)))).toNat

/-- The highFrequencyCombined buffer of separateFrequencies (the alpha copies
the original's, a zero alpha replaced by 255 as `original[i+3] || 255`). -/
def highFrequencyCombined (orig low : Image) : Image where
  width := orig.width
  height := orig.height
  px := fun x y =>
    ⟨combinedChannel (orig.px x y).r (low.px x y).r,
     combinedChannel (orig.px x y).g (low.px x y).g,
     combinedChannel (orig.px x y).b (low.px x y).b,
     if (orig.px x y).a = 0 then 255 else (orig.px x y).a⟩

/-- combineWithLinearLight: per-channel Linear Light blend, alpha from the
base (`baseImageData.data[i+3] || 255`). -/
def combineWithLinearLight (base overlay : Image) : Image where
  width := base.width
  height := base.height
  px := fun x y =>
    ⟨linearLightChannel (base.px x y).r (overlay.px x y).r,
     linearLightChannel (base.px x y).g (overlay.px x y).g,
     linearLightChannel (base.px x y).b (overlay.px x y).b,
     if (base.px x y).a = 0 then 255 else (base.px x y).a⟩

/- ## Supporting lemmas for the Linear Light claim -/

lemma linearLight_roundtrip_channel (orig low : ℕ) (ho : orig ≤ 255)
    (hl : low ≤ 255) :
    ((linearLightChannel low (combinedChannel orig low) : ℤ) - (orig : ℤ)).natAbs ≤ 1 := by
  by_cases hd : (orig : ℤ) - (low : ℤ) = 255
  · have horig : orig = 255 := by omega
    have hlow : low = 0 := by omega
    subst horig
    subst hlow
    have hc : combinedChannel 255 0 = 255 := by
      norm_num [combinedChannel, jsRound]
      decide
    rw [hc]
    norm_num [linearLightChannel]
  · -- the pre-round value is below the 255 clamp, so the clamp is inactive
    have hq : max 0 (min 255 ((128 : ℚ) + ((orig : ℚ) - (low : ℚ)) / 2)) =
        (128 : ℚ) + ((orig : ℚ) - (low : ℚ)) / 2 := by
      have h1 : ((128 : ℚ) + ((orig : ℚ) - (low : ℚ)) / 2) ≤ 255 := by
        have h1a : ((orig : ℤ)) - (low : ℤ) ≤ 254 := by omega
        have : ((orig : ℚ)) - (low : ℚ) ≤ 254 := by exact_mod_cast h1a
        linarith
      have h2 : (0 : ℚ) ≤ (128 : ℚ) + ((orig : ℚ) - (low : ℚ)) / 2 := by
        have h2a : (-255 : ℤ) ≤ ((orig : ℤ)) - (low : ℤ) := by omega
        have : (-255 : ℚ) ≤ ((orig : ℚ)) - (low : ℚ) := by exact_mod_cast h2a
        linarith
      rw [min_eq_right h1, max_eq_right h2]
    set H : ℤ := jsRound ((128 : ℚ) + ((orig : ℚ) - (low : ℚ)) / 2) with hH
    have hbound : 2 * H ≤ 257 + ((orig : ℤ) - (low : ℤ)) ∧
        257 + ((orig : ℤ) - (low : ℤ)) ≤ 2 * H + 1 := by
      have hlow2 : (H : ℚ) ≤ (128 : ℚ) + ((orig : ℚ) - (low : ℚ)) / 2 + 1 / 2 :=
        Int.floor_le _
      have hhigh : (128 : ℚ) + ((orig : ℚ) - (low : ℚ)) / 2 + 1 / 2 < (H : ℚ) + 1 :=
        Int.lt_floor_add_one _
      constructor
      · have h3 : (2 * H : ℚ) ≤ (257 : ℚ) + ((orig : ℚ) - (low : ℚ)) := by linarith
        exact_mod_cast h3
      · have h3 : (257 : ℚ) + ((orig : ℚ) - (low : ℚ)) < (2 * H : ℚ) + 2 := by linarith
        have h4 : (257 : ℤ) + ((orig : ℤ) - (low : ℤ)) < 2 * H + 2 := by
          exact_mod_cast h3
        omega
    have hc : combinedChannel orig low = H.toNat := by
      unfold combinedChannel
      rw [hq]
    rw [hc]
    have htn : ((H.toNat : ℕ) : ℤ) = H := Int.toNat_of_nonneg (by omega)
    have hX : (low : ℤ) + 2 * (H - 128) = (orig : ℤ) ∨
        (low : ℤ) + 2 * (H - 128) = (orig : ℤ) + 1 := by omega
    have hr : (linearLightChannel low H.toNat : ℤ) =
        min 255 (max 0 ((low : ℤ) + 2 * (H - 128))) := by
      unfold linearLightChannel
      rw [htn]
      exact Int.toNat_of_nonneg (le_min (by norm_num) (le_max_left 0 _))
    have hmax : max 0 ((low : ℤ) + 2 * (H - 128)) = (low : ℤ) + 2 * (H - 128) :=
      max_eq_right (by omega)
    rcases le_or_lt ((low : ℤ) + 2 * (H - 128)) 255 with h255 | h255
    · rw [hr, hmax, min_eq_right h255]
      omega
    · rw [hr, hmax, min_eq_left (le_of_lt h255)]
      omega

/- ## Claim theorem: Linear Light reconstruction -/

/-- C3: for every original image and every low-frequency image (hence for
every blur radius) and every color channel, recombining the low-frequency
layer with the combined high-frequency buffer (encoded 128 + diff/2) through
combineWithLinearLight reproduces the original channel value within 1. -/
theorem linearLight_reconstructs (orig low : Image) (x y : ℕ)
    (ho : (orig.px x y).r ≤ 255 ∧ (orig.px x y).g ≤ 255 ∧ (orig.px x y).b ≤ 255)
    (hl : (low.px x y).r ≤ 255 ∧ (low.px x y).g ≤ 255 ∧ (low.px x y).b ≤ 255) :
    ((((combineWithLinearLight low (highFrequencyCombined orig low)).px x y).r : ℤ) -
        ((orig.px x y).r : ℤ)).natAbs ≤ 1 ∧
    ((((combineWithLinearLight low (highFrequencyCombined orig low)).px x y).g : ℤ) -
        ((orig.px x y).g : ℤ)).natAbs ≤ 1 ∧
    ((((combineWithLinearLight low (highFrequencyCombined orig low)).px x y).b : ℤ) -
        ((orig.px x y).b : ℤ)).natAbs ≤ 1 := by
  refine ⟨?_, ?_, ?_⟩
  · exact linearLight_roundtrip_channel _ _ ho.1 hl.1
  · exact linearLight_roundtrip_channel _ _ ho.2.1 hl.2.1
  · exact linearLight_roundtrip_channel _ _ ho.2.2 hl.2.2

/-- A 1-by-1 image with an odd channel difference against flat gray 100. -/
def imgOrig : Image := ⟨1, 1, fun _ _ => ⟨37, 200, 255, 255⟩⟩

def imgLow : Image := ⟨1, 1, fun _ _ => ⟨100, 100, 100, 255⟩⟩

theorem linearLight_reconstructs_witness :
    ((((combineWithLinearLight imgLow (highFrequencyCombined imgOrig imgLow)).px 0 0).r : ℤ) -
        (((imgOrig.px 0 0).r : ℕ) : ℤ)).natAbs ≤ 1 :=
  (linearLight_reconstructs imgOrig imgLow 0 0
    (by refine ⟨?_, ?_, ?_⟩ <;> decide) (by refine ⟨?_, ?_, ?_⟩ <;> decide)).1

/- ## Per-pixel compositing helpers (useCanvasRenderer.ts) -/

inductive BlendMode where
  | normal
  | multiply
deriving DecidableEq, Repr

/-- combineImageData (lines 676-710): normal alpha blend, or multiply when
requested and the overlay is not transparent; output alpha is the maximum of
the two alphas in every branch. -/
def combineImageData (base overlay : Image) (mode : BlendMode) : Image where
  width := base.width
  height := base.height
  px := fun x y =>
    let bp := base.px x y
    let op := overlay.px x y
    let alpha : ℚ := (op.a : ℚ) / 255
    if mode = BlendMode.multiply ∧ 0 < op.a then
      ⟨jsByte (min 255 ((bp.r : ℚ) * ((op.r : ℚ) / 255))),
       jsByte (min 255 ((bp.g : ℚ) * ((op.g : ℚ) / 255))),
       jsByte (min 255 ((bp.b : ℚ) * ((op.b : ℚ) / 255))),
       max bp.a op.a⟩
    else
      ⟨jsByte ((bp.r : ℚ) * (1 - alpha) + (op.r : ℚ) * alpha),
       jsByte ((bp.g : ℚ) * (1 - alpha) + (op.g : ℚ) * alpha),
       jsByte ((bp.b : ℚ) * (1 - alpha) + (op.b : ℚ) * alpha),
       max bp.a op.a⟩

/-- combineImageDataTransparent (lines 713-749): alpha blend when the overlay
pixel is visible, base copied verbatim otherwise. -/
def combineImageDataTransparent (base overlay : Image) : Image where
  width := base.width
  height := base.height
  px := fun x y =>
    let bp := base.px x y
    let op := overlay.px x y
    if 0 < op.a then
      let alpha : ℚ := (op.a : ℚ) / 255
      ⟨jsByte ((bp.r : ℚ) * (1 - alpha) + (op.r : ℚ) * alpha),
       jsByte ((bp.g : ℚ) * (1 - alpha) + (op.g : ℚ) * alpha),
       jsByte ((bp.b : ℚ) * (1 - alpha) + (op.b : ℚ) * alpha),
       max bp.a op.a⟩
    else bp

/-- combineWithFiltering (lines 849-875): opacity-weighted blend of the
filtered image over the base; output alpha is the maximum of the two. -/
def combineWithFiltering (base filtered : Image) (opacity : ℕ) : Image where
  width := base.width
  height := base.height
  px := fun x y =>
    let bp := base.px x y
    let fp := filtered.px x y
    let alpha : ℚ := (opacity : ℚ) / 100
    ⟨jsByte ((bp.r : ℚ) * (1 - alpha) + (fp.r : ℚ) * alpha),
     jsByte ((bp.g : ℚ) * (1 - alpha) + (fp.g : ℚ) * alpha),
     jsByte ((bp.b : ℚ) * (1 - alpha) + (fp.b : ℚ) * alpha),
     max bp.a fp.a⟩

/- ## Claim theorem: stacking never decreases opacity -/

/-- C10: combineImageData, combineImageDataTransparent and
combineWithFiltering all set the output alpha to the maximum of the base and
overlay alphas, for every blend mode and opacity, so the base pixel's
opacity never decreases as layers are stacked. -/
theorem combined_alpha_is_max (base overlay : Image) (mode : BlendMode)
    (opacity : ℕ) (x y : ℕ) :
    ((combineImageData base overlay mode).px x y).a =
      max (base.px x y).a (overlay.px x y).a ∧
    ((combineImageDataTransparent base overlay).px x y).a =
      max (base.px x y).a (overlay.px x y).a ∧
    ((combineWithFiltering base overlay opacity).px x y).a =
      max (base.px x y).a (overlay.px x y).a ∧
    (base.px x y).a ≤ ((combineImageData base overlay mode).px x y).a := by
  have h1 : ((combineImageData base overlay mode).px x y).a =
      max (base.px x y).a (overlay.px x y).a := by
    simp only [combineImageData]
    split_ifs <;> rfl
  have h2 : ((combineImageDataTransparent base overlay).px x y).a =
      max (base.px x y).a (overlay.px x y).a := by
    simp only [combineImageDataTransparent]
    split_ifs with h
    · rfl
    · omega
  exact ⟨h1, h2, rfl, by rw [h1]; exact Nat.le_max_left _ _⟩

/- ## The layer renderer (useCanvasRenderer.ts, renderWithLayers) -/

inductive EdgeColor where
  | white
  | dark
deriving DecidableEq, Repr

/-- combineWithCannyEdges: blend the edge color (40 when dark, 255 when
white) over bright edge pixels by the opacity percentage. -/
def combineWithCannyEdges (base edges : Image) (color : EdgeColor)
    (opacity : ℕ) : Image where
  width := base.width
  height := base.height
  px := fun x y =>
    let bp := base.px x y
    let ep := edges.px x y
    if 0 < ep.a ∧ (128 < ep.r ∨ 128 < ep.g ∨ 128 < ep.b) then
      let blendRatio : ℚ := (opacity : ℚ) / 100
      let edgeOpacity : ℚ := ((opacity : ℚ) / 100) * 255
      let cv : ℚ := if color = EdgeColor.dark then 40 else 255
      ⟨jsByte ((bp.r : ℚ) * (1 - blendRatio) + cv * blendRatio),
       jsByte ((bp.g : ℚ) * (1 - blendRatio) + cv * blendRatio),
       jsByte ((bp.b : ℚ) * (1 - blendRatio) + cv * blendRatio),
       jsByte (max (bp.a : ℚ) edgeOpacity)⟩
    else bp

/-- combineWithCannyEdgesTransparent: blend scaled by the edge pixel's own
alpha (edge color 50 when dark, 255 when white). -/
def combineWithCannyEdgesTransparent (base edges : Image) (color : EdgeColor)
    (opacity : ℕ) : Image where
  width := base.width
  height := base.height
  px := fun x y =>
    let bp := base.px x y
    let ep := edges.px x y
    if 0 < ep.a then
      let blendRatio : ℚ := ((opacity : ℚ) / 100) * ((ep.a : ℚ) / 255)
      let edgeOpacity : ℤ := ⌊(255 : ℚ) * blendRatio⌋
      let cv : ℚ := if color = EdgeColor.dark then 50 else 255
      ⟨jsByte ((bp.r : ℚ) * (1 - blendRatio) + cv * blendRatio),
       jsByte ((bp.g : ℚ) * (1 - blendRatio) + cv * blendRatio),
       jsByte ((bp.b : ℚ) * (1 - blendRatio) + cv * blendRatio),
       (max (bp.a : ℤ) edgeOpacity).toNat⟩
    else bp

/-- convertToGrayscale: replace the color channels by the BT.601 luminance. -/
def convertToGrayscale (img : Image) : Image where
  width := img.width
  height := img.height
  px := fun x y =>
    let c := img.px x y
    ⟨jsByte (luminance c), jsByte (luminance c), jsByte (luminance c), c.a⟩

/-- createBrightnessDataFromFiltered: rounded luminance map of an image. -/
def createBrightnessDataFromFiltered (img : Image) : BrightnessData where
  width := img.width
  height := img.height
  brightnessMap := fun y x => ((jsRound (luminance (img.px x y))) : ℚ)

structure DisplayLayers where
  original : Bool
  filtered : Bool
  contour : Bool
  filteredContour : Bool
  edge : Bool
  lowFrequency : Bool
  highFrequencyBright : Bool
  highFrequencyDark : Bool
deriving DecidableEq, Repr

structure DisplayOptions where
  layers : DisplayLayers
  grayscaleMode : Bool
deriving DecidableEq, Repr

structure FrequencyData where
  lowFrequency : Option Image
  highFrequencyBright : Option Image
  highFrequencyDark : Option Image

/-- The inputs renderWithLayers receives besides the display options. -/
structure RenderInputs where
  originalImageData : Image
  brightnessData : Option BrightnessData
  edgeData : Option Image
  filteredImageData : Option Image
  contourSettings : ContourSettings
  cannyOpacity : ℕ
  imageFilterOpacity : ℕ
  frequencyData : Option FrequencyData

/-- `hasBaseImage`: an original layer, or a filtered layer with a filtered
image present. -/
def hasBaseImage (opts : DisplayOptions) (inp : RenderInputs) : Bool :=
  opts.layers.original || (opts.layers.filtered && inp.filteredImageData.isSome)

def blackBackground (w h : ℕ) : Image := ⟨w, h, fun _ _ => ⟨0, 0, 0, 255⟩⟩

def transparentBackground (w h : ℕ) : Image := ⟨w, h, fun _ _ => Rgba.zero⟩

/-- Steps 1-2 of renderWithLayers: background, original layer, filtered
layer. -/
def applyBaseLayers (opts : DisplayOptions) (inp : RenderInputs) : Image :=
  let w := inp.originalImageData.width
  let h := inp.originalImageData.height
  let base0 : Image :=
    if hasBaseImage opts inp then blackBackground w h else transparentBackground w h
  let base1 : Image :=
    if opts.layers.original then
      if opts.grayscaleMode then convertToGrayscale inp.originalImageData
      else inp.originalImageData
    else base0
  if opts.layers.filtered then
    match inp.filteredImageData with
    | some fd =>
      let filteredToUse := if opts.grayscaleMode then convertToGrayscale fd else fd
      if opts.layers.original then
        combineWithFiltering base1 filteredToUse inp.imageFilterOpacity
      else filteredToUse
    | none =>
      if opts.layers.original then base1
      else if opts.grayscaleMode then convertToGrayscale inp.originalImageData
      else inp.originalImageData
  else base1

/-- Step 3 of renderWithLayers: the contour layer (from the original image's
brightness data), opaque or transparent variant by hasBaseImage. -/
def applyContourLayer (opts : DisplayOptions) (inp : RenderInputs)
    (img : Image) : Image :=
  if opts.layers.contour then
    match inp.brightnessData with
    | some bd =>
      let contourData :=
        if hasBaseImage opts inp then detectContours bd inp.contourSettings
        else detectContoursTransparent bd inp.contourSettings
      if hasBaseImage opts inp then combineImageData img contourData BlendMode.normal
      else combineImageDataTransparent img contourData
    | none => img
  else img

/-- Step 4 of renderWithLayers: the filtered-contour layer. -/
def applyFilteredContourLayer (opts : DisplayOptions) (inp : RenderInputs)
    (img : Image) : Image :=
  if opts.layers.filteredContour then
    match inp.brightnessData with
    | some bd =>
      match inp.filteredImageData with
      | some fd =>
        let fbd := createBrightnessDataFromFiltered fd
        let fcd :=
          if hasBaseImage opts inp then detectContours fbd inp.contourSettings
          else detectContoursTransparent fbd inp.contourSettings
        if hasBaseImage opts inp then combineImageData img fcd BlendMode.normal
        else combineImageDataTransparent img fcd
      | none =>
        let cd :=
          if hasBaseImage opts inp then detectContours bd inp.contourSettings
          else detectContoursTransparent bd inp.contourSettings
        if hasBaseImage opts inp then combineImageData img cd BlendMode.normal
        else combineImageDataTransparent img cd
    | none => img
  else img

/-- The edge color context of step 5: dark in grayscale mode, or when only
line-art layers are shown without any base image layer; white otherwise. -/
def edgeColorFor (opts : DisplayOptions) : EdgeColor :=
  if opts.grayscaleMode ||
      ((opts.layers.contour || opts.layers.filteredContour) &&
        !opts.layers.original && !opts.layers.filtered) then EdgeColor.dark
  else EdgeColor.white

/-- Step 5 of renderWithLayers: the edge overlay. -/
def applyEdgeLayer (opts : DisplayOptions) (inp : RenderInputs)
    (img : Image) : Image :=
  if opts.layers.edge then
    match inp.edgeData with
    | some ed =>
      if hasBaseImage opts inp then
        combineWithCannyEdges img ed (edgeColorFor opts) inp.cannyOpacity
      else combineWithCannyEdgesTransparent img ed (edgeColorFor opts) inp.cannyOpacity
    | none => img
  else img

/-- Step 6 of renderWithLayers: the frequency layers. -/
def applyFrequencyLayers (opts : DisplayOptions) (inp : RenderInputs)
    (img0 : Image) : Image :=
  match inp.frequencyData with
  | none => img0
  | some fq =>
    let img1 :=
      if opts.layers.lowFrequency then
        match fq.lowFrequency with
        | some lf =>
          if hasBaseImage opts inp then combineImageData img0 lf BlendMode.normal
          else combineImageDataTransparent img0 lf
        | none => img0
      else img0
    let img2 :=
      if opts.layers.highFrequencyBright then
        match fq.highFrequencyBright with
        | some hb =>
          if opts.layers.lowFrequency then combineWithLinearLight img1 hb
          else if hasBaseImage opts inp then combineImageData img1 hb BlendMode.normal
          else combineImageDataTransparent img1 hb
        | none => img1
      else img1
    if opts.layers.highFrequencyDark then
      match fq.highFrequencyDark with
      | some hd =>
        if opts.layers.lowFrequency then combineWithLinearLight img2 hd
        else if hasBaseImage opts inp then combineImageData img2 hd BlendMode.normal
        else combineImageDataTransparent img2 hd
      | none => img2
    else img2

/-- renderWithLayers: the fixed layer stack of the source. -/
def renderWithLayers (opts : DisplayOptions) (inp : RenderInputs) : Image :=
  applyFrequencyLayers opts inp
    (applyEdgeLayer opts inp
      (applyFilteredContourLayer opts inp
        (applyContourLayer opts inp (applyBaseLayers opts inp))))

/- ## Claim theorems: layer independence -/

/-- The concrete renderer inputs of the C5 counterexample: a 1-by-1 image
with a full-white edge map and no filtered or frequency data. -/
def inpC5 : RenderInputs where
  originalImageData := ⟨1, 1, fun _ _ => ⟨10, 10, 10, 255⟩⟩
  brightnessData := some ⟨1, 1, fun _ _ => 10⟩
  edgeData := some ⟨1, 1, fun _ _ => ⟨255, 255, 255, 255⟩⟩
  filteredImageData := none
  contourSettings := ⟨4, 100, 65, 0⟩
  cannyOpacity := 100
  imageFilterOpacity := 100
  frequencyData := none

/-- Contour and edge layers on, nothing else. -/
def optsA : DisplayOptions := ⟨⟨false, false, true, false, true, false, false, false⟩, false⟩

/-- Same options with the contour layer toggled off. -/
def optsB : DisplayOptions := ⟨⟨false, false, false, false, true, false, false, false⟩, false⟩

/-- C5 counterexample: toggling the contour layer off flips the still-enabled
edge layer's color from dark to white, changing the edge layer's computed
pixel values: the rendered pixel goes from (50,50,50,255) to
(255,255,255,255) even though the disabled contour layer contributed nothing
(its overlay was fully transparent on a 1-by-1 image). -/
theorem renderWithLayers_layers_not_independent :
    optsA.layers.edge = true ∧ optsB.layers.edge = true ∧
    optsA = ⟨{ optsB.layers with contour := true }, optsB.grayscaleMode⟩ ∧
    edgeColorFor optsA = EdgeColor.dark ∧ edgeColorFor optsB = EdgeColor.white ∧
    (renderWithLayers optsA inpC5).px 0 0 = ⟨50, 50, 50, 255⟩ ∧
    (renderWithLayers optsB inpC5).px 0 0 = ⟨255, 255, 255, 255⟩ ∧
    ((⟨50, 50, 50, 255⟩ : Rgba) ≠ ⟨255, 255, 255, 255⟩) := by
  refine ⟨rfl, rfl, rfl, rfl, rfl, ?_, ?_, by decide⟩
  · show (applyFrequencyLayers optsA inpC5 _).px 0 0 = _
    have hbase : applyBaseLayers optsA inpC5 = transparentBackground 1 1 := rfl
    have hcont : applyContourLayer optsA inpC5 (transparentBackground 1 1) =
        combineImageDataTransparent (transparentBackground 1 1)
          (detectContoursTransparent ⟨1, 1, fun _ _ => 10⟩ ⟨4, 100, 65, 0⟩) := rfl
    have hservice : ∀ x y, (combineImageDataTransparent (transparentBackground 1 1)
        (detectContoursTransparent ⟨1, 1, fun _ _ => 10⟩ ⟨4, 100, 65, 0⟩)).px x y =
        Rgba.zero := by
      intro x y
      have hz : (detectContoursTransparent ⟨1, 1, fun _ _ => 10⟩ ⟨4, 100, 65, 0⟩).px x y =
          Rgba.zero := by
        simp only [detectContoursTransparent]
        rw [if_neg]
        intro hint
        rcases hint with ⟨h1, h2, h3, h4⟩
        omega
      simp only [combineImageDataTransparent, hz]
      rfl
    rw [hbase, hcont]
    show (applyFrequencyLayers optsA inpC5 (applyEdgeLayer optsA inpC5
      (applyFilteredContourLayer optsA inpC5 _))).px 0 0 = _
    have hfc : applyFilteredContourLayer optsA inpC5
        (combineImageDataTransparent (transparentBackground 1 1)
          (detectContoursTransparent ⟨1, 1, fun _ _ => 10⟩ ⟨4, 100, 65, 0⟩)) =
        combineImageDataTransparent (transparentBackground 1 1)
          (detectContoursTransparent ⟨1, 1, fun _ _ => 10⟩ ⟨4, 100, 65, 0⟩) := rfl
    rw [hfc]
    show ((combineWithCannyEdgesTransparent _ ⟨1, 1, fun _ _ => ⟨255, 255, 255, 255⟩⟩
      EdgeColor.dark 100).px 0 0) = _
    simp only [combineWithCannyEdgesTransparent, hservice 0 0]
    norm_num [Rgba.zero, jsByte, jsByteI, roundHalfEven, jsRound]
    decide
  · show (applyFrequencyLayers optsB inpC5 _).px 0 0 = _
    have hbase : applyBaseLayers optsB inpC5 = transparentBackground 1 1 := rfl
    rw [hbase]
    show ((combineWithCannyEdgesTransparent (transparentBackground 1 1)
      ⟨1, 1, fun _ _ => ⟨255, 255, 255, 255⟩⟩ EdgeColor.white 100).px 0 0) = _
    simp only [combineWithCannyEdgesTransparent, transparentBackground]
    rw [show (if EdgeColor.white = EdgeColor.dark then (50 : ℚ) else 255) = 255 from rfl]
    norm_num [Rgba.zero, jsByte, jsByteI, roundHalfEven]
    decide

/-- C5 amended: toggling the edge layer never alters the other layers'
computed contributions - the base, contour, filtered-contour and frequency
stages are independent of the edge toggle, and with the edge layer off the
render is exactly the same stack with the edge stage skipped. The original
claim fails for the other direction: the edge layer's contribution depends
on the contour, filteredContour, original and filtered toggles (its color
context), and the contour stages depend on the base-layer toggles through
hasBaseImage. -/
theorem renderWithLayers_edge_toggle_independent (opts : DisplayOptions)
    (inp : RenderInputs) (b : Bool) (img : Image) :
    applyBaseLayers ⟨{ opts.layers with edge := b }, opts.grayscaleMode⟩ inp =
      applyBaseLayers opts inp ∧
    applyContourLayer ⟨{ opts.layers with edge := b }, opts.grayscaleMode⟩ inp img =
      applyContourLayer opts inp img ∧
    applyFilteredContourLayer ⟨{ opts.layers with edge := b }, opts.grayscaleMode⟩ inp img =
      applyFilteredContourLayer opts inp img ∧
    applyFrequencyLayers ⟨{ opts.layers with edge := b }, opts.grayscaleMode⟩ inp img =
      applyFrequencyLayers opts inp img ∧
    renderWithLayers ⟨{ opts.layers with edge := false }, opts.grayscaleMode⟩ inp =
      applyFrequencyLayers opts inp
        (applyFilteredContourLayer opts inp
          (applyContourLayer opts inp (applyBaseLayers opts inp))) := by
  rcases opts with ⟨⟨o, f, c, fc, e, lf, hb, hd⟩, gm⟩
  refine ⟨rfl, rfl, rfl, rfl, ?_⟩
  unfold renderWithLayers applyEdgeLayer
  rfl

end ContourTool
